import Mathlib

/-!
Shallow embedding of `src/dags/erp_aps_integracao.py` (Oracle → SQL Server APS
integration DAG).  Tabular data is modelled as a list of named, dtype-tagged
columns of scalar values; database and notification side effects are modelled
as an explicit effect trace produced by the pipeline functions.
-/

namespace ErpAps

/-! ## Text utilities (Python `str.strip`, `str.split`, `str.lower`, ...) -/

/-- Python's default whitespace set for `str.strip()`. -/
def isSpaceChar (c : Char) : Bool :=
  c == ' ' || c == '\t' || c == '\n' || c == '\r' || c == '\x0b' || c == '\x0c'

/-- `s.rstrip()` on a character list. -/
def pyRStrip (l : List Char) : List Char :=
  (l.reverse.dropWhile isSpaceChar).reverse

/-- `s.strip()` on a character list. -/
def pyStrip (l : List Char) : List Char :=
  pyRStrip (l.dropWhile isSpaceChar)

/-- `s.split(":")[0]` (for a string with no colon this is the whole string). -/
def beforeColon (l : List Char) : List Char :=
  l.takeWhile (fun c => c != ':')

/-- `erro_principal` as computed by `enviar_email_erro`: the part of the error
text before the first colon, stripped, truncated to 200 characters with an
ellipsis appended when longer. -/
def erroPrincipal (msg : List Char) : List Char :=
  let seg := pyStrip (beforeColon msg)
  if 200 < seg.length then seg.take 200 ++ "...".toList else seg

/-- The leading segment of the original error text that the notification
message carries (the stripped before-colon part, truncated to 200 chars). -/
def leadSeg (msg : List Char) : List Char :=
  (pyStrip (beforeColon msg)).take 200

/-- The email body built by `enviar_email_erro` from the error text and the
context string. -/
def mensagemEmail (erro ctx : List Char) : List Char :=
  if ctx = [] then "Erro: ".toList ++ erroPrincipal erro
  else "Falha identificada durante: ".toList ++ ctx ++ "\n\nErro: ".toList ++ erroPrincipal erro

def lcChar (c : Char) : Char := c.toLower

/-- `s.lower()` (character-list based). -/
def strLower (s : String) : String := (s.toList.map lcChar).asString

/-! ## Data model: scalar values, dtypes, columns, frames, schemas -/

/-- Loosely-typed scalar values flowing through a pandas frame.  `vnull` is
Python `None`; `vnan` is the floating `NaN` / `NaT` sentinel.  Timestamps,
dates and times are carried as integer codes (seconds). -/
inductive Val
  | vstr (s : String)
  | vint (n : ℤ)
  | vnum (q : ℚ)
  | vbool (b : Bool)
  | vdt (n : ℤ)
  | vdate (n : ℤ)
  | vtime (n : ℤ)
  | vnull
  | vnan
deriving DecidableEq

/-- pandas column dtypes relevant to the final NaN-normalization pass. -/
inductive Dtype
  | int64
  | float64
  | boolDt
  | objectDt
deriving DecidableEq

structure Col where
  name : String
  dtype : Dtype
  vals : List Val
deriving DecidableEq

/-- A data frame: ordered list of columns (duplicate labels representable, as
in pandas). -/
abbrev DF := List Col

/-- Destination schema: ordered association of lower-cased column name to
lower-cased declared SQL Server type. -/
abbrev Schema := List (String × String)

def colNames (df : DF) : List String := df.map (fun c => c.name)

def schemaKeys (s : Schema) : List String := s.map (fun p => p.1)

/-- Row count of a frame (pandas frames are rectangular; we read it off the
first column). -/
def nRows (df : DF) : ℕ :=
  match df with
  | [] => 0
  | c :: _ => c.vals.length

/-- `df.empty` in pandas: true when either axis has length zero. -/
def isEmptyDf (df : DF) : Bool :=
  df.isEmpty || nRows df == 0

/-- `df.columns = df.columns.str.lower()`. -/
def lowerCols (df : DF) : DF :=
  df.map (fun c => { c with name := strLower c.name })

/-- Association-list lookup by key (`find?` on the first component). -/
def lookupD (d : List (String × String)) (k : String) : Option String :=
  (d.find? (fun p => p.1 == k)).map (fun p => p.2)

/-! ## Source constants -/

/-- `SQLSERVER_TO_PY`: SQL Server type name → pandas dtype name. -/
def SQLSERVER_TO_PY : List (String × String) :=
  [("int", "int64"), ("bigint", "int64"), ("smallint", "int64"), ("tinyint", "int64"),
   ("bit", "bool"),
   ("money", "float64"), ("smallmoney", "float64"), ("decimal", "float64"),
   ("numeric", "float64"), ("float", "float64"), ("real", "float64"),
   ("varchar", "object"), ("nvarchar", "object"), ("char", "object"),
   ("nchar", "object"), ("text", "object"), ("ntext", "object"),
   ("datetime", "datetime64[ns]"), ("smalldatetime", "datetime64[ns]"),
   ("date", "datetime64[ns]"), ("datetime2", "datetime64[ns]"),
   ("time", "object")]

def DATETIME_TYPES : List String := ["datetime", "datetime2", "smalldatetime"]

def DATE_TYPES : List String := ["date"]

def TIME_TYPES : List String := ["time"]

/-- `COLUMN_MAPPING`: the explicit Oracle → SQL Server column alias table.  It
is empty in the source. -/
def COLUMN_MAPPING : List (String × String) := []

/-- `SQLSERVER_TO_PY.get(sql_type, "object")`. -/
def targetOf (t : String) : String :=
  (lookupD SQLSERVER_TO_PY t).getD "object"

/-! ## Scalar parsing and per-type coercion (`cast_df_to_schema` internals) -/

def digitsToNat (l : List Char) : ℕ :=
  l.foldl (fun a c => a * 10 + (c.toNat - 48)) 0

/-- Simplified model of `pd.to_numeric` on a string: optional sign, digits,
optional fractional part; anything else is unparseable. -/
def pdToNumericStr (s : String) : Option ℚ :=
  let l := pyStrip s.toList
  let signAndRest : Bool × List Char :=
    match l with
    | '-' :: r => (true, r)
    | '+' :: r => (false, r)
    | _ => (false, l)
  let body := signAndRest.2
  let q? : Option ℚ :=
    match body.splitOn '.' with
    | [ip] =>
        if ip.isEmpty || !ip.all Char.isDigit then none
        else some ((digitsToNat ip : ℚ))
    | [ip, fp] =>
        if (ip.isEmpty && fp.isEmpty) || !ip.all Char.isDigit || !fp.all Char.isDigit then none
        else some ((digitsToNat ip : ℚ) + (digitsToNat fp : ℚ) / ((10 : ℚ) ^ fp.length))
    | _ => none
  q?.map (fun q => if signAndRest.1 then -q else q)

/-- `pd.to_numeric(x, errors="coerce")` on one scalar: `none` is the NaN
outcome. -/
def pdToNumeric (v : Val) : Option ℚ :=
  match v with
  | .vint n => some (n : ℚ)
  | .vnum q => some q
  | .vbool b => some (if b then 1 else 0)
  | .vstr s => pdToNumericStr s
  | _ => none

/-- Truncation toward zero, as numpy `astype("int64")` does on floats. -/
def ratTrunc (q : ℚ) : ℤ := q.num / (q.den : ℤ)

/-- Day/month/year slash-date (or bare epoch-seconds digits) parser standing
in for `pd.to_datetime`'s permissive string parsing.  The encoded value is
`(y*10000 + m*100 + d) * 86400` for calendar dates. -/
def parseDateString (dayfirst : Bool) (s : String) : Option ℤ :=
  let l := pyStrip s.toList
  match l.splitOn '/' with
  | [a, b, c] =>
      if a.isEmpty || b.isEmpty || c.isEmpty ||
         !a.all Char.isDigit || !b.all Char.isDigit || !c.all Char.isDigit then none
      else
        let day := if dayfirst then digitsToNat a else digitsToNat b
        let mon := if dayfirst then digitsToNat b else digitsToNat a
        let yr := digitsToNat c
        some (((yr * 10000 + mon * 100 + day : ℕ) : ℤ) * 86400)
  | [d] =>
      if d.isEmpty || !d.all Char.isDigit then none else some ((digitsToNat d : ℕ) : ℤ)
  | _ => none

/-- `pd.to_datetime(x, errors="coerce")` on one scalar; `none` is NaT. -/
def pdToDatetimeV (dayfirst : Bool) (v : Val) : Option ℤ :=
  match v with
  | .vdt n => some n
  | .vdate n => some n
  | .vint n => some n
  | .vnum q => some (ratTrunc q)
  | .vstr s => parseDateString dayfirst s
  | _ => none

/-- datetime branch: parse permissively, keep the full timestamp, NaT → None. -/
def castDt (v : Val) : Val :=
  match pdToDatetimeV false v with
  | some n => .vdt n
  | none => .vnull

/-- date branch: parse with `dayfirst=True`, keep only the date component. -/
def castDate (v : Val) : Val :=
  match pdToDatetimeV true v with
  | some n => .vdate (n - n % 86400)
  | none => .vnull

/-- time branch: parse permissively, keep only the time component. -/
def castTime (v : Val) : Val :=
  match pdToDatetimeV false v with
  | some n => .vtime (n % 86400)
  | none => .vnull

/-- int64 branch: `pd.to_numeric(errors="coerce").fillna(0).astype("int64")`. -/
def castInt (v : Val) : Val :=
  .vint (ratTrunc ((pdToNumeric v).getD 0))

/-- float64 branch: `pd.to_numeric(errors="coerce")` (NaN survives here and is
cleaned by the final pass). -/
def castFloat (v : Val) : Val :=
  match pdToNumeric v with
  | some q => .vnum q
  | none => .vnan

/-- `fillna(False)` on one scalar. -/
def fillNaFalse (v : Val) : Val :=
  match v with
  | .vnull => .vbool false
  | .vnan => .vbool false
  | w => w

/-- Python truthiness, as applied by `astype(bool)` on an object column. -/
def pyTruthy (v : Val) : Bool :=
  match v with
  | .vstr s => !s.isEmpty
  | .vint n => n != 0
  | .vnum q => q != 0
  | .vbool b => b
  | .vdt _ => true
  | .vdate _ => true
  | .vtime _ => true
  | .vnull => false
  | .vnan => true

/-- bool branch: `df[col].fillna(False).astype(bool)`. -/
def castBool (v : Val) : Val :=
  .vbool (pyTruthy (fillNaFalse v))

/-- One per-type column conversion of `cast_df_to_schema` (the body of the
`for col, sql_type in schema_map.items()` loop for a matching column). -/
def castColFn (sqlType : String) (c : Col) : Col :=
  if strLower sqlType ∈ DATETIME_TYPES then ⟨c.name, .objectDt, c.vals.map castDt⟩
  else if strLower sqlType ∈ DATE_TYPES then ⟨c.name, .objectDt, c.vals.map castDate⟩
  else if strLower sqlType ∈ TIME_TYPES then ⟨c.name, .objectDt, c.vals.map castTime⟩
  else
    match targetOf (strLower sqlType) with
    | "int64" => ⟨c.name, .int64, c.vals.map castInt⟩
    | "float64" => ⟨c.name, .float64, c.vals.map castFloat⟩
    | "bool" => ⟨c.name, .boolDt, c.vals.map castBool⟩
    | _ => ⟨c.name, .objectDt, c.vals⟩

/-- `df[col] = <converted>` for one schema entry: converts every column whose
label equals the entry's name, leaves the rest alone (a name not present in
the frame means nothing changes, matching the `continue`). -/
def applyCast (d : DF) (p : String × String) : DF :=
  d.map (fun c => if c.name = p.1 then castColFn p.2 c else c)

/-- The effect of one schema entry on one column (the per-column view of
`applyCast`). -/
def stepCol (c : Col) (p : String × String) : Col :=
  if c.name = p.1 then castColFn p.2 c else c

/-- `x.where(pd.notnull(x), None)` on one scalar: both NaN and None fail
`notnull`, so both map to None. -/
def nullifyNa (v : Val) : Val :=
  match v with
  | .vnan => .vnull
  | .vnull => .vnull
  | w => w

/-- The final normalization applied per column: float64 and object columns get
their NaN sentinels replaced by None. -/
def finalColFn (c : Col) : Col :=
  if c.dtype = .float64 ∨ c.dtype = .objectDt then ⟨c.name, c.dtype, c.vals.map nullifyNa⟩
  else c

def finalNaPass (df : DF) : DF := df.map finalColFn

/-- `cast_df_to_schema`: per-schema-entry conversion followed by the final
NaN-normalization pass over all columns. -/
def castDfToSchema (df : DF) (schema : Schema) : DF :=
  finalNaPass (schema.foldl applyCast df)

/-! ## Schema introspection (`get_sqlserver_schema`) -/

/-- Python dict insertion: an existing key keeps its position and gets the new
value; a new key is appended. -/
def dictInsert (d : List (String × String)) (k v : String) : List (String × String) :=
  if d.any (fun p => p.1 == k) then d.map (fun p => if p.1 = k then (k, v) else p)
  else d ++ [(k, v)]

/-- Build a Python dict (as an ordered association list) from a pair list. -/
def pyDict (l : List (String × String)) : List (String × String) :=
  l.foldl (fun d p => dictInsert d p.1 p.2) []

/-- `{col.lower(): dtype.lower() for col, dtype in rows}` preserving catalog
order. -/
def introspectSchema (rows : List (String × String)) : Schema :=
  pyDict (rows.map (fun p => (strLower p.1, strLower p.2)))

/-- `full_name.split(".", 1)` with default schema `dbo`. -/
def splitTableName (full : String) : String × String :=
  let l := full.toList
  if l.contains '.' then
    ((l.takeWhile (fun c => c != '.')).asString,
     ((l.dropWhile (fun c => c != '.')).tail).asString)
  else ("dbo", full)

/-- `get_sqlserver_schema`: catalog query plus the empty-result `ValueError`. -/
def getSqlserverSchema (records : String → String → Except String (List (String × String)))
    (full : String) : Except String Schema :=
  let sn := splitTableName full
  match records sn.1 sn.2 with
  | .error e => .error e
  | .ok rows =>
      if rows.isEmpty then .error ("Colunas não encontradas para " ++ full)
      else .ok (introspectSchema rows)

/-! ## Column reconciliation (`normalize_column_names` and the driver's
backfill / drop / reorder steps) -/

/-- `k.lower().replace('_', '')`. -/
def normName (s : String) : String :=
  ((strLower s).toList.filter (fun c => c != '_')).asString

/-- `normalized_schema = {k.lower().replace('_',''): k for k in schema_map}`. -/
def normalizedSchema (keys : List String) : List (String × String) :=
  pyDict (keys.map (fun k => (normName k, k)))

/-- Whether the explicit alias rule fires:
`df_col in COLUMN_MAPPING and COLUMN_MAPPING[df_col] in schema_map`. -/
def aliasOk (mapping : List (String × String)) (keys : List String) (n : String) : Bool :=
  match lookupD mapping n with
  | some m => decide (m ∈ keys)
  | none => false

/-- The rename decision the loop body of `normalize_column_names` takes for a
single incoming column name (`none` = keep the name). -/
def renameDecision (mapping : List (String × String)) (keys : List String) (n : String) :
    Option String :=
  if n ∈ keys then none
  else if aliasOk mapping keys n then lookupD mapping n
  else lookupD (normalizedSchema keys) (normName n)

/-- The `rename_map` accumulated over `df.columns`. -/
def buildRenameMap (mapping : List (String × String)) (cols keys : List String) :
    List (String × String) :=
  cols.filterMap (fun n => (renameDecision mapping keys n).map (fun t => (n, t)))

/-- `normalize_column_names`: rename the frame's columns through `rename_map`
(a label that is no key of the map keeps its name, as `DataFrame.rename`
does). -/
def normalizeColumnNames (mapping : List (String × String)) (df : DF) (schema : Schema) : DF :=
  let rm := buildRenameMap mapping (colNames df) (schemaKeys schema)
  df.map (fun c => { c with name := (lookupD rm c.name).getD c.name })

/-- Backfill: every schema column absent from the frame is appended as an
all-None object column (`df[col] = None`). -/
def backfillMissing (df : DF) (schema : Schema) : DF :=
  df ++ ((schemaKeys schema).filter (fun k => decide (k ∉ colNames df))).map
    (fun k => ⟨k, Dtype.objectDt, List.replicate (nRows df) Val.vnull⟩)

/-- Drop: `df = df.drop(columns=extra_cols)` for the labels not in the
schema. -/
def dropExtras (df : DF) (schema : Schema) : DF :=
  df.filter (fun c => decide (c.name ∈ schemaKeys schema))

/-- `df = df[cols_ordered]`: select, for each schema name in order, every
column carrying that label (pandas returns all duplicates of a label). -/
def reorderCols (df : DF) (schema : Schema) : DF :=
  (schemaKeys schema).flatMap (fun k => df.filter (fun c => decide (c.name = k)))

/-- The pure per-statement frame pipeline of `extrai_envia_sqlserver`:
normalize names, backfill missing, drop extras, cast, reorder.  The result is
what `safe_insert_rows` receives. -/
def reconcilePipeline (df : DF) (schema : Schema) : DF :=
  let df1 := normalizeColumnNames COLUMN_MAPPING df schema
  let df2 := backfillMissing df1 schema
  let df3 := dropExtras df2 schema
  let df4 := castDfToSchema df3 schema
  reorderCols df4 schema

/-! ## Destination-name derivation (the regex pipeline in the driver) -/

/-- Does the lower-cased text start with `table(`? -/
def tableOpenAt (l : List Char) : Bool :=
  (l.take 6).map lcChar == "table(".toList

/-- `re.search(r'table\(([^)]+?)\s*\)', stmt, re.I).group(1)`: scan for the
first position where the whole pattern matches; the non-greedy group is the
text up to the first `)` with trailing whitespace shed (never empty). -/
def searchTable : List Char → Option (List Char)
  | [] => none
  | c :: rest =>
      if tableOpenAt (c :: rest) then
        let after := (c :: rest).drop 6
        let grp := after.takeWhile (fun x => x != ')')
        if grp.isEmpty || grp.length == after.length then searchTable rest
        else
          let g := pyRStrip grp
          some (if g.isEmpty then grp.take 1 else g)
      else searchTable rest

/-- `re.sub(r"^fc_return_rs(?:_rel)?_", "", func_name, flags=re.I)`. -/
def stripFcReturn (l : List Char) : List Char :=
  if "fc_return_rs_rel_".toList.isPrefixOf (l.map lcChar) then l.drop 17
  else if "fc_return_rs_".toList.isPrefixOf (l.map lcChar) then l.drop 13
  else l

/-- Characters removed by `re.sub(r"[();\s]", "", ...)`. -/
def isStrippedChar (c : Char) : Bool :=
  c == '(' || c == ')' || c == ';' || isSpaceChar c

/-- Substring containment on character lists (Python `in`). -/
def containsSeq (pat : List Char) : List Char → Bool
  | [] => pat.isPrefixOf ([] : List Char)
  | c :: rest => pat.isPrefixOf (c :: rest) || containsSeq pat rest

/-- Left-to-right non-overlapping replacement of `pat` by `rep` (Python
`str.replace`), with a character-count fuel for structural termination. -/
def pyReplaceAux (pat rep : List Char) : ℕ → List Char → List Char
  | 0, l => l
  | _ + 1, [] => []
  | n + 1, c :: rest =>
      if !pat.isEmpty && pat.isPrefixOf (c :: rest) then
        rep ++ pyReplaceAux pat rep n ((c :: rest).drop pat.length)
      else c :: pyReplaceAux pat rep n rest

def pyReplace (s pat rep : String) : String :=
  (pyReplaceAux pat.toList rep.toList s.toList.length s.toList).asString

/-- The destination-table derivation of `extrai_envia_sqlserver`:
take the `table(...)` group, keep the part after the last dot, strip the
`fc_return_rs[_rel]_` prefix, drop `();` and whitespace, lower-case, prefix
`dbo.`, and apply the `estoques` → `estoque` fix.  `none` models the
`AttributeError` when the regex finds no match. -/
def deriveDestino (stmt : String) : Option String :=
  (searchTable stmt.toList).map (fun grp =>
    let funcName := (grp.splitOn '.').getLastD grp
    let s1 := stripFcReturn funcName
    let destino := "dbo." ++ ((s1.filter (fun c => !isStrippedChar c)).map lcChar).asString
    if containsSeq "estoques".toList destino.toList then
      pyReplace destino "estoques" "estoque"
    else destino)

/-! ## Queries-file parsing -/

/-- `line.strip().lower().startswith("--select")`. -/
def isSelectLine (l : String) : Bool :=
  "--select".toList.isPrefixOf ((pyStrip l.toList).map lcChar)

/-- `line.lstrip("-").strip().replace(';', '')`. -/
def toStmt (l : String) : String :=
  ((pyStrip (l.toList.dropWhile (fun c => c == '-'))).filter (fun c => c != ';')).asString

def parseSelects (lines : List String) : List String :=
  (lines.filter isSelectLine).map toStmt

/-! ## Effects, environment, and the pipeline controller -/

/-- Observable side effects of one run: SQL Server truncate/insert, Oracle
truncate/insert, an operator notification (with the built email body), and the
flag reset UPDATE. -/
inductive Effect
  | truncateMs (tbl : String)
  | insertMs (tbl : String) (fields : List String) (rows : ℕ)
  | truncateOra (tbl : String)
  | insertOra (tbl : String) (fields : List String) (rows : ℕ)
  | notify (msg : List Char)
  | setFlagN
deriving DecidableEq

def isNotifyEff (e : Effect) : Bool :=
  match e with
  | .notify _ => true
  | _ => false

def countNotify (l : List Effect) : ℕ := l.countP isNotifyEff

/-- External world: flag read, queries file, Oracle query results, SQL Server
catalog, the reverse-copy source frame and the post-reset verification read. -/
structure Env where
  flagRead : Except String (Option (Option String))
  queriesFileExists : Bool
  queryLines : List String
  queryRes : String → Except String DF
  msRecords : String → String → Except String (List (String × String))
  copiaRes : Except String DF
  resetVerify : Option (Option String)

def ctxFlag : String := "verificação da flag de execução"

def ctxExtr : String := "extração e envio para SQL Server"

def ctxCopia : String := "cópia da programação"

def ctxAjusta : String := "atualização do parâmetro RODA_INTEGRACAO_APS"

/-- Context string of the per-table error email; `prev` is the `destino`
local variable if already bound (it survives loop iterations). -/
def ctxTabela (prev : Option String) : String :=
  match prev with
  | some d => "processamento da tabela " ++ d
  | none => "processamento da tabela desconhecida"

def notifyEff (erro ctx : String) : Effect :=
  .notify (mensagemEmail erro.toList ctx.toList)

def attrErr : String := "AttributeError"

def fileErr : String := "Arquivo não encontrado: /root/airflow/include/queries_integra_aps.sql"

/-- One iteration of the statement loop: returns (effects, the `destino`
local after the iteration, the raised error if any).  On failure the inner
`except` sends the per-table email and re-raises. -/
def processStmt (env : Env) (prev : Option String) (stmt : String) :
    List Effect × Option String × Option String :=
  match env.queryRes stmt with
  | .error e => ([notifyEff e (ctxTabela prev)], prev, some e)
  | .ok df0 =>
      let df := lowerCols df0
      if isEmptyDf df then ([], prev, none)
      else
        match deriveDestino stmt with
        | none => ([notifyEff attrErr (ctxTabela prev)], prev, some attrErr)
        | some destino =>
            match getSqlserverSchema env.msRecords destino with
            | .error e => ([notifyEff e (ctxTabela (some destino))], some destino, some e)
            | .ok schema =>
                let d2 := reconcilePipeline df schema
                ([.truncateMs destino, .insertMs destino (schemaKeys schema) (nRows d2)],
                 some destino, none)

/-- The statement loop: stops at the first failing statement (the re-raised
error aborts the whole driver run). -/
def processAll (env : Env) (prev : Option String) : List String → List Effect × Option String
  | [] => ([], none)
  | s :: rest =>
      match processStmt env prev s with
      | (effs, _, some e) => (effs, some e)
      | (effs, prev2, none) =>
          let r := processAll env prev2 rest
          (effs ++ r.1, r.2)

/-- The `destino` local after successfully processing a list of statements. -/
def prevAfter (env : Env) (prev : Option String) : List String → Option String
  | [] => prev
  | s :: rest => prevAfter env (processStmt env prev s).2.1 rest

/-- `extrai_envia_sqlserver`: file check, statement loop, and the outer
`except` that sends a second, stage-level email before re-raising. -/
def extraiEnvia (env : Env) : List Effect × Option String :=
  if env.queriesFileExists then
    match processAll env none (parseSelects env.queryLines) with
    | (effs, some e) => (effs ++ [notifyEff e ctxExtr], some e)
    | (effs, none) => (effs, none)
  else ([notifyEff fileErr ctxExtr], some fileErr)

/-- `checa_flag`: branch on the flag read; on a read failure notify and
re-raise.  Returns the chosen downstream task id (or the propagated error)
plus the emitted effects. -/
def checaFlag (r : Except String (Option (Option String))) :
    Except String String × List Effect :=
  match r with
  | .error e => (.error e, [notifyEff e ctxFlag])
  | .ok row =>
      (.ok (if row = some (some "S") then "extrai_envia_sqlserver" else "fim_sem_execucao"), [])

def oraTbl : String := "SYSDATACOM.TB_LSB_INT_PROGRAMACAO"

/-- `copia_programacao`: read the SQL Server source; an empty frame returns
without any write; otherwise truncate the Oracle table and bulk-insert the
frame verbatim (its own columns as target fields, no reconciliation). -/
def copiaProg (env : Env) : List Effect × Option String :=
  match env.copiaRes with
  | .error e => ([notifyEff e ctxCopia], some e)
  | .ok df =>
      if isEmptyDf df then ([], none)
      else ([.truncateOra oraTbl, .insertOra oraTbl (colNames df) (nRows df)], none)

def ajustaErr : String := "Falha ao verificar atualização do parâmetro RODA_INTEGRACAO_APS"

/-- `ajusta_roda_integraca_aps`: UPDATE the flag to `N`, then verify; a failed
verification notifies and raises. -/
def ajustaRoda (env : Env) : List Effect × Option String :=
  if env.resetVerify = some (some "N") then ([.setFlagN], none)
  else ([.setFlagN, notifyEff ajustaErr ctxAjusta], some ajustaErr)

inductive RunState
  | done
  | skipped
  | failed
deriving DecidableEq

/-- The DAG chain `checa_flag ≫ extrai_envia ≫ copia_prog ≫ ajusta`: each
downstream task runs only when everything upstream succeeded; a branch to
`fim_sem_execucao` skips all real work. -/
def runPipeline (env : Env) : RunState × List Effect :=
  match checaFlag env.flagRead with
  | (.error _, effs) => (.failed, effs)
  | (.ok b, effs0) =>
      if b = "extrai_envia_sqlserver" then
        match extraiEnvia env with
        | (e1, some _) => (.failed, effs0 ++ e1)
        | (e1, none) =>
            match copiaProg env with
            | (e2, some _) => (.failed, effs0 ++ e1 ++ e2)
            | (e2, none) =>
                match ajustaRoda env with
                | (e3, some _) => (.failed, effs0 ++ e1 ++ e2 ++ e3)
                | (e3, none) => (.done, effs0 ++ e1 ++ e2 ++ e3)
      else (.skipped, effs0)

/-! ## Spec-side predicates -/

/-- Well-typedness of one coerced scalar for one destination SQL type, per the
spec's type tags: timestamps/dates/times/ints/floats/bools must be of the
matching `Val` shape; any other (text-like) type accepts every non-sentinel
value. -/
def wellTypedB (t : String) (v : Val) : Bool :=
  if t ∈ DATETIME_TYPES then (match v with | .vdt _ => true | _ => false)
  else if t ∈ DATE_TYPES then (match v with | .vdate _ => true | _ => false)
  else if t ∈ TIME_TYPES then (match v with | .vtime _ => true | _ => false)
  else
    match targetOf t with
    | "int64" => (match v with | .vint _ => true | _ => false)
    | "float64" => (match v with | .vnum _ => true | _ => false)
    | "bool" => (match v with | .vbool _ => true | _ => false)
    | _ => !(v == .vnan) && !(v == .vnull)

/-! ## Concrete scenario data -/

/-- Catalog rows for a two-column destination table. -/
def rowsW1 : List (String × String) := [("Col_A", "VARCHAR"), ("COL_B", "INT")]

/-- A result table with one renamable column and one extra column. -/
def dfW1 : DF :=
  [⟨"cola", .objectDt, [.vstr "x", .vnull]⟩, ⟨"extra", .objectDt, [.vstr "y", .vstr "z"]⟩]

def rowsW2 : List (String × String) := [("N", "INT")]

def colW2 : Col := ⟨"n", .objectDt, [.vstr "abc", .vnull, .vstr "12", .vnan]⟩

def dfW2 : DF := [colW2]

def rowsW6 : List (String × String) := [("FLAG", "BIT")]

def colW6 : Col := ⟨"flag", .objectDt, [.vstr "", .vnull, .vstr "0", .vnan, .vbool true]⟩

def dfW6 : DF := [colW6]

/-- Schema whose two column names collide after normalization. -/
def rowsC9 : List (String × String) := [("ORDER_QTY", "int"), ("ORDERQTY", "int")]

def dfC9 : DF := [⟨"order__qty", .objectDt, [.vstr "5"]⟩]

def envTrivialQueryRes : String → Except String DF := fun _ => .ok []

def envTrivialRecords : String → String → Except String (List (String × String)) :=
  fun _ _ => .ok [("a", "int")]

/-- Environment whose flag read fails. -/
def envC3 : Env :=
  { flagRead := .error "ORA-01033", queriesFileExists := true, queryLines := [],
    queryRes := envTrivialQueryRes, msRecords := envTrivialRecords,
    copiaRes := .ok [], resetVerify := some (some "N") }

/-- Environment whose flag row is absent. -/
def envC3b : Env :=
  { flagRead := .ok none, queriesFileExists := true, queryLines := [],
    queryRes := envTrivialQueryRes, msRecords := envTrivialRecords,
    copiaRes := .ok [], resetVerify := some (some "N") }

def lineC4 : String := "--SELECT * FROM table(PKG_APS.FC_RETURN_RS_REL_LOTE()) ;"

def stmtC4 : String := "SELECT * FROM table(PKG_APS.FC_RETURN_RS_REL_LOTE()) "

def dfC4 : DF := [⟨"ID", .objectDt, [.vstr "1"]⟩]

/-- Environment where the only extraction statement targets `dbo.lote` and the
catalog lookup for it fails (a schema error). -/
def envC4 : Env :=
  { flagRead := .ok (some (some "S")), queriesFileExists := true, queryLines := [lineC4],
    queryRes := fun _ => .ok dfC4,
    msRecords := fun _ _ => .error "Invalid object name",
    copiaRes := .ok [], resetVerify := some (some "N") }

/-- Same failing-schema scenario, used to count notifications. -/
def envC8 : Env :=
  { flagRead := .ok (some (some "S")), queriesFileExists := true, queryLines := [lineC4],
    queryRes := fun _ => .ok dfC4,
    msRecords := fun _ _ => .error "ORA-00942: table or view does not exist",
    copiaRes := .ok [], resetVerify := some (some "N") }

/-- A run with no extraction statements and an empty reverse-copy source: it
reaches (and passes) the copy step. -/
def envC5 : Env :=
  { flagRead := .ok (some (some "S")), queriesFileExists := true, queryLines := [],
    queryRes := envTrivialQueryRes, msRecords := envTrivialRecords,
    copiaRes := .ok [⟨"A", .objectDt, []⟩], resetVerify := some (some "N") }

def dfC5 : DF := [⟨"A", .objectDt, [.vstr "x", .vstr "y"]⟩, ⟨"B", .int64, [.vint 1, .vint 2]⟩]

/-- Same run with a non-empty reverse-copy source. -/
def envC5b : Env :=
  { flagRead := .ok (some (some "S")), queriesFileExists := true, queryLines := [],
    queryRes := envTrivialQueryRes, msRecords := envTrivialRecords,
    copiaRes := .ok dfC5, resetVerify := some (some "N") }

/-! ## Helper lemmas about the text utilities -/

theorem dropWhile_append_stop (p : Char → Bool) (a b : List Char) (c : Char)
    (hc : p c = false) : (a ++ c :: b).dropWhile p = a.dropWhile p ++ c :: b := by
  induction a with
  | nil => simp [List.dropWhile_cons, hc]
  | cons x a ih =>
      by_cases hx : p x
      · simp [List.dropWhile_cons, hx, ih]
      · simp [List.dropWhile_cons, hx]

theorem head_dropWhile_false (p : Char → Bool) (l : List Char) (x : Char) (xs : List Char)
    (h : l.dropWhile p = x :: xs) : p x = false := by
  induction l with
  | nil => simp at h
  | cons y l ih =>
      rw [List.dropWhile_cons] at h
      by_cases hy : p y
      · rw [if_pos hy] at h; exact ih h
      · rw [if_neg hy] at h
        injection h with h1 _
        subst h1
        simpa using hy

theorem pyRStrip_append_stop (u r : List Char) (c : Char) (hc : isSpaceChar c = false) :
    pyRStrip (u ++ c :: r) = u ++ c :: pyRStrip r := by
  unfold pyRStrip
  rw [show (u ++ c :: r).reverse = r.reverse ++ c :: u.reverse by simp]
  rw [dropWhile_append_stop _ _ _ _ hc]
  simp

theorem pyRStrip_self_pre (u : List Char) : ∃ t, pyRStrip u ++ t = u := by
  refine ⟨(u.reverse.takeWhile isSpaceChar).reverse, ?_⟩
  unfold pyRStrip
  rw [← List.reverse_append, List.takeWhile_append_dropWhile, List.reverse_reverse]

theorem pyStrip_beforeColon_pre (msg : List Char) :
    ∃ t, pyStrip (beforeColon msg) ++ t = pyStrip msg := by
  have hsplit : beforeColon msg ++ msg.dropWhile (fun c => c != ':') = msg := by
    unfold beforeColon
    exact List.takeWhile_append_dropWhile _ _
  cases hrest : msg.dropWhile (fun c => c != ':') with
  | nil =>
      have : beforeColon msg = msg := by
        have := hsplit
        rw [hrest, List.append_nil] at this
        exact this
      exact ⟨[], by rw [List.append_nil, this]⟩
  | cons x xs =>
      have hx : (x != ':') = false := head_dropWhile_false (fun c => c != ':') msg x xs hrest
      have hx2 : x = ':' := by simpa using hx
      subst hx2
      have hmsg : msg = beforeColon msg ++ ':' :: xs := by
        conv_lhs => rw [← hsplit]
        rw [hrest]
      generalize hgen : beforeColon msg = t0 at hmsg ⊢
      rw [hmsg]
      have key : pyStrip (t0 ++ ':' :: xs) =
          (t0.dropWhile isSpaceChar) ++ ':' :: pyRStrip xs := by
        unfold pyStrip
        rw [dropWhile_append_stop isSpaceChar _ _ _ (by decide),
          pyRStrip_append_stop _ _ _ (by decide)]
      obtain ⟨t, ht⟩ := pyRStrip_self_pre (t0.dropWhile isSpaceChar)
      refine ⟨t ++ ':' :: pyRStrip xs, ?_⟩
      rw [key, ← List.append_assoc]
      rw [show pyStrip t0 = pyRStrip (t0.dropWhile isSpaceChar) from rfl, ht]

theorem leadSeg_pre_principal (msg : List Char) :
    ∃ t, leadSeg msg ++ t = erroPrincipal msg := by
  unfold leadSeg erroPrincipal
  by_cases h : 200 < (pyStrip (beforeColon msg)).length
  · rw [if_pos h]
    exact ⟨"...".toList, rfl⟩
  · rw [if_neg h]
    refine ⟨[], ?_⟩
    rw [List.append_nil]
    exact List.take_of_length_le (by omega)

/-- Claim C7: for every reported failure, the operator-notification message
carries a leading segment of the original error text, truncated to at most
200 characters.  Formally: the carried segment `leadSeg msg` has length at
most 200, is a prefix of the stripped original error text, and occurs inside
the notification body built by `enviar_email_erro` for any context. -/
theorem claim7_truncated_leading_segment (msg ctx : List Char) :
    (leadSeg msg).length ≤ 200 ∧
    (∃ t, leadSeg msg ++ t = pyStrip msg) ∧
    (∃ s t, s ++ (leadSeg msg ++ t) = mensagemEmail msg ctx) := by
  refine ⟨?_, ?_, ?_⟩
  · unfold leadSeg
    rw [List.length_take]
    omega
  · obtain ⟨t1, ht1⟩ := pyStrip_beforeColon_pre msg
    refine ⟨(pyStrip (beforeColon msg)).drop 200 ++ t1, ?_⟩
    rw [← List.append_assoc]
    unfold leadSeg
    rw [List.take_append_drop]
    exact ht1
  · obtain ⟨t2, ht2⟩ := leadSeg_pre_principal msg
    unfold mensagemEmail
    by_cases hc : ctx = []
    · rw [if_pos hc]
      exact ⟨"Erro: ".toList, t2, by rw [ht2]⟩
    · rw [if_neg hc]
      refine ⟨"Falha identificada durante: ".toList ++ ctx ++ "\n\nErro: ".toList, t2, ?_⟩
      rw [ht2, List.append_assoc, List.append_assoc]

/-! ## C10: destination-name derivation -/

/-- Counterexample to claim C10: a statement whose `table(...)` clause
references `FC_RETURN_RS_REL_ESTOQUES(...)` with a non-empty argument list
derives `dbo.estoquesysdate`, not `dbo.estoque` — the argument text survives
into the name. -/
theorem claim10_cex :
    deriveDestino "select * from table(pkg_aps.fc_return_rs_rel_estoques(sysdate))" =
      some "dbo.estoquesysdate" ∧
    some "dbo.estoquesysdate" ≠ some "dbo.estoque" := by
  constructor
  · rfl
  · decide

/-- Claim C10 amended: when the `FC_RETURN_RS_REL_ESTOQUES` reference carries
an empty argument list (so nothing but strippable characters stands before the
first closing parenthesis), the derivation yields exactly `dbo.estoque` —
prefix stripped (with or without `_REL`), non-identifier characters removed,
lower-cased, pluralization fix applied, `dbo.` prefixed; a non-empty argument
list is retained inside the derived name. -/
theorem claim10_amended :
    deriveDestino "select * from table(pck_datacom_aps.fc_return_rs_rel_estoques())" =
      some "dbo.estoque" ∧
    deriveDestino "SELECT * FROM table(FC_RETURN_RS_ESTOQUES( ))" = some "dbo.estoque" ∧
    deriveDestino "select * from table(pkg_aps.fc_return_rs_rel_estoques(sysdate))" =
      some "dbo.estoquesysdate" := by
  exact ⟨rfl, rfl, rfl⟩

/-! ## C3: the run gate -/

/-- Counterexample to claim C3: when the flag read itself fails, the
controller does not short-circuit to the skipped terminal state — `checa_flag`
re-raises after notifying and the run fails. -/
theorem claim3_cex :
    (runPipeline envC3).1 = RunState.failed ∧ (runPipeline envC3).1 ≠ RunState.skipped := by
  decide

/-- Claim C3 amended: the gate proceeds to extraction exactly when the flag
read succeeds with value `S`; a successful read of anything else (including
`N`, an absent row, or a NULL value) short-circuits to the skipped no-op
state; a failed read notifies the operator and re-raises, so the run ends
failed, not skipped. -/
theorem claim3_amended (env : Env) :
    ((checaFlag env.flagRead).1 = Except.ok "extrai_envia_sqlserver" ↔
      env.flagRead = .ok (some (some "S"))) ∧
    (∀ row, env.flagRead = .ok row → row ≠ some (some "S") →
      (runPipeline env).1 = RunState.skipped) ∧
    (∀ e, env.flagRead = .error e → (runPipeline env).1 = RunState.failed ∧
      (runPipeline env).2 = [notifyEff e ctxFlag]) := by
  refine ⟨?_, ?_, ?_⟩
  · cases hr : env.flagRead with
    | error e => simp [checaFlag]
    | ok row =>
        by_cases h : row = some (some "S")
        · subst h; simp [checaFlag]
        · simp [checaFlag, h]
  · intro row hr hrow
    unfold runPipeline
    rw [hr]
    simp [checaFlag, hrow]
  · intro e hr
    unfold runPipeline
    rw [hr]
    exact ⟨rfl, rfl⟩

/-- Witness for the amended C3 at concrete inputs: a failing read ends the run
failed with one notification, and an absent flag row skips. -/
theorem claim3_amended_witness :
    ((runPipeline envC3).1 = RunState.failed ∧
      (runPipeline envC3).2 = [notifyEff "ORA-01033" ctxFlag]) ∧
    (runPipeline envC3b).1 = RunState.skipped := by
  refine ⟨(claim3_amended envC3).2.2 "ORA-01033" rfl, ?_⟩
  exact (claim3_amended envC3b).2.1 none rfl (by decide)

/-! ## C5: the reverse-direction copy -/

/-- Counterexample to claim C5: a run that reaches (and completes) the copy
step with an empty source table performs no truncate of the Oracle
destination — the copy is conditional on a non-empty source, not
unconditional. -/
theorem claim5_cex :
    runPipeline envC5 = (RunState.done, [Effect.setFlagN]) ∧
    Effect.truncateOra "SYSDATACOM.TB_LSB_INT_PROGRAMACAO" ∉ (runPipeline envC5).2 := by
  decide

/-- Claim C5 amended: on every run that reaches the copy step with a
*non-empty* source table, `copia_programacao` truncates the Oracle destination
and bulk-inserts the full contents of the source, with the source's own
columns as target fields (no schema reconciliation); with an empty source it
performs no write at all. -/
theorem claim5_amended (env : Env) (df : DF) (h : env.copiaRes = .ok df) :
    (isEmptyDf df = false →
      copiaProg env = ([.truncateOra oraTbl, .insertOra oraTbl (colNames df) (nRows df)], none)) ∧
    (isEmptyDf df = true → copiaProg env = ([], none)) := by
  constructor
  · intro hne
    unfold copiaProg
    rw [h]
    simp [hne]
  · intro he
    unfold copiaProg
    rw [h]
    simp [he]

/-- Witness for the amended C5: with the concrete two-column, two-row source
the copy truncates and inserts all rows verbatim; with the empty source it
does nothing. -/
theorem claim5_amended_witness :
    (copiaProg envC5b =
      ([.truncateOra oraTbl, .insertOra oraTbl ["A", "B"] 2], none)) ∧
    copiaProg envC5 = ([], none) := by
  constructor
  · have h := (claim5_amended envC5b dfC5 rfl).1 (by decide)
    simpa [dfC5, colNames, nRows] using h
  · exact (claim5_amended envC5 [⟨"A", .objectDt, []⟩] rfl).2 (by decide)

/-! ## Python-dict lemmas -/

theorem lookupD_nil (n : String) : lookupD [] n = none := rfl

theorem lookupD_cons_self (p : String × String) (d : List (String × String)) (n : String)
    (h : p.1 = n) : lookupD (p :: d) n = some p.2 := by
  unfold lookupD
  rw [List.find?_cons_of_pos _ (by simpa using h)]
  rfl

theorem lookupD_cons_ne (p : String × String) (d : List (String × String)) (n : String)
    (h : ¬p.1 = n) : lookupD (p :: d) n = lookupD d n := by
  unfold lookupD
  rw [List.find?_cons_of_neg _ (by simpa using h)]

theorem lookupD_map_subst_ne (d : List (String × String)) (k v kq : String) (h : kq ≠ k) :
    lookupD (d.map (fun p => if p.1 = k then (k, v) else p)) kq = lookupD d kq := by
  induction d with
  | nil => rfl
  | cons p d ih =>
      rw [List.map_cons]
      by_cases hp : p.1 = k
      · rw [if_pos hp, lookupD_cons_ne _ _ _ (fun hc => h hc.symm),
          lookupD_cons_ne _ _ _ (fun hc => h (hp ▸ hc).symm)]
        exact ih
      · rw [if_neg hp]
        by_cases hq : p.1 = kq
        · rw [lookupD_cons_self _ _ _ hq, lookupD_cons_self _ _ _ hq]
        · rw [lookupD_cons_ne _ _ _ hq, lookupD_cons_ne _ _ _ hq]
          exact ih

theorem lookupD_map_subst_self (d : List (String × String)) (k v : String)
    (hany : d.any (fun p => p.1 == k)) :
    lookupD (d.map (fun p => if p.1 = k then (k, v) else p)) k = some v := by
  induction d with
  | nil => simp at hany
  | cons p d ih =>
      rw [List.map_cons]
      by_cases hp : p.1 = k
      · rw [if_pos hp, lookupD_cons_self (k, v) _ k rfl]
      · rw [if_neg hp, lookupD_cons_ne _ _ _ hp]
        apply ih
        simp only [List.any_cons] at hany
        rcases Bool.or_eq_true_iff.mp hany with hh | hh
        · exact absurd (by simpa using hh) hp
        · exact hh

theorem lookupD_append (d1 d2 : List (String × String)) (n : String) :
    lookupD (d1 ++ d2) n =
      match lookupD d1 n with
      | some v => some v
      | none => lookupD d2 n := by
  induction d1 with
  | nil => rw [List.nil_append, lookupD_nil]
  | cons p d1 ih =>
      by_cases hp : p.1 = n
      · rw [List.cons_append, lookupD_cons_self _ _ _ hp, lookupD_cons_self _ _ _ hp]
      · rw [List.cons_append, lookupD_cons_ne _ _ _ hp, lookupD_cons_ne _ _ _ hp]
        exact ih

theorem lookupD_eq_none_of_not_any (d : List (String × String)) (n : String)
    (h : ¬d.any (fun p => p.1 == n)) : lookupD d n = none := by
  induction d with
  | nil => rfl
  | cons p d ih =>
      simp only [List.any_cons, Bool.or_eq_true, not_or] at h
      rw [lookupD_cons_ne _ _ _ (by simpa using h.1)]
      exact ih (by simpa using h.2)

theorem lookupD_dictInsert_self (d : List (String × String)) (k v : String) :
    lookupD (dictInsert d k v) k = some v := by
  unfold dictInsert
  by_cases hany : d.any (fun p => p.1 == k)
  · rw [if_pos hany]
    exact lookupD_map_subst_self d k v hany
  · rw [if_neg hany]
    rw [lookupD_append]
    rw [lookupD_eq_none_of_not_any d k hany]
    exact lookupD_cons_self _ _ _ rfl

theorem lookupD_dictInsert_ne (d : List (String × String)) (k v kq : String) (h : kq ≠ k) :
    lookupD (dictInsert d k v) kq = lookupD d kq := by
  unfold dictInsert
  by_cases hany : d.any (fun p => p.1 == k)
  · rw [if_pos hany]
    exact lookupD_map_subst_ne d k v kq h
  · rw [if_neg hany]
    rw [lookupD_append]
    rw [lookupD_cons_ne (k, v) [] kq (fun hc => h hc.symm), lookupD_nil]
    cases lookupD d kq <;> rfl

theorem pyDict_append_one (l : List (String × String)) (p : String × String) :
    pyDict (l ++ [p]) = dictInsert (pyDict l) p.1 p.2 := by
  unfold pyDict
  rw [List.foldl_append]
  rfl

theorem lookupD_pyDict_last (l : List (String × String)) (k : String) :
    lookupD (pyDict l) k = ((l.filter (fun p => p.1 == k)).getLast?).map (fun p => p.2) := by
  induction l using List.reverseRecOn with
  | nil => rfl
  | append_singleton l p ih =>
      rw [pyDict_append_one, List.filter_append]
      by_cases hp : p.1 = k
      · rw [show lookupD (dictInsert (pyDict l) p.1 p.2) k = some p.2 from
          hp ▸ lookupD_dictInsert_self (pyDict l) p.1 p.2]
        simp [hp]
      · rw [lookupD_dictInsert_ne (pyDict l) p.1 p.2 k (fun hc => hp hc.symm)]
        simp [hp, ih]

theorem schemaKeys_dictInsert (d : List (String × String)) (k v : String) :
    schemaKeys (dictInsert d k v) =
      if d.any (fun p => p.1 == k) then schemaKeys d else schemaKeys d ++ [k] := by
  unfold dictInsert
  by_cases hany : d.any (fun p => p.1 == k)
  · rw [if_pos hany, if_pos hany]
    unfold schemaKeys
    rw [List.map_map]
    apply List.map_congr_left
    intro p _
    by_cases hp : p.1 = k
    · simp [hp]
    · simp [hp]
  · rw [if_neg hany, if_neg hany]
    simp [schemaKeys]

theorem pyDict_keys_nodup_aux (l : List (String × String)) :
    ∀ d : List (String × String), (schemaKeys d).Nodup →
      (schemaKeys (l.foldl (fun d p => dictInsert d p.1 p.2) d)).Nodup := by
  induction l with
  | nil => intro d hd; exact hd
  | cons p l ih =>
      intro d hd
      rw [List.foldl_cons]
      apply ih
      rw [schemaKeys_dictInsert]
      by_cases hany : d.any (fun q => q.1 == p.1)
      · rw [if_pos hany]; exact hd
      · rw [if_neg hany]
        have hnot : p.1 ∉ schemaKeys d := by
          intro hmem
          apply hany
          rw [List.any_eq_true]
          obtain ⟨q, hq, hq2⟩ := List.mem_map.mp hmem
          exact ⟨q, hq, by simp [hq2]⟩
        simp [List.nodup_append, hd, hnot]

theorem pyDict_keys_nodup (l : List (String × String)) : (schemaKeys (pyDict l)).Nodup :=
  pyDict_keys_nodup_aux l [] (by simp [schemaKeys])

theorem introspect_keys_nodup (rows : List (String × String)) :
    (schemaKeys (introspectSchema rows)).Nodup :=
  pyDict_keys_nodup _

/-! ## Rename-map lemmas -/

theorem getLast?_map_pair (f : String → String × String) (l : List String) :
    (l.map f).getLast? = (l.getLast?).map f := by
  induction l with
  | nil => rfl
  | cons x l ih =>
      cases l with
      | nil => rfl
      | cons y l => simpa using ih

theorem lookup_normalizedSchema (keys : List String) (n : String) :
    lookupD (normalizedSchema keys) (normName n) =
      (keys.filter (fun k => normName k == normName n)).getLast? := by
  unfold normalizedSchema
  rw [lookupD_pyDict_last]
  rw [show (keys.map (fun k => (normName k, k))).filter (fun p => p.1 == normName n) =
      (keys.filter (fun k => normName k == normName n)).map (fun k => (normName k, k)) by
    rw [List.filter_map]; rfl]
  rw [getLast?_map_pair]
  rw [Option.map_map]
  cases (keys.filter (fun k => normName k == normName n)).getLast? <;> rfl

theorem buildRenameMap_cons (m : List (String × String)) (keys : List String)
    (c : String) (cols : List String) :
    buildRenameMap m (c :: cols) keys =
      match renameDecision m keys c with
      | none => buildRenameMap m cols keys
      | some t => (c, t) :: buildRenameMap m cols keys := by
  unfold buildRenameMap
  rw [List.filterMap_cons]
  cases renameDecision m keys c <;> rfl

theorem lookupD_buildRenameMap_none (m : List (String × String)) (keys : List String)
    (n : String) (h : renameDecision m keys n = none) (cols : List String) :
    lookupD (buildRenameMap m cols keys) n = none := by
  induction cols with
  | nil => rfl
  | cons c cols ih =>
      rw [buildRenameMap_cons]
      cases hd : renameDecision m keys c with
      | none => exact ih
      | some t =>
          by_cases hc : c = n
          · subst hc; rw [hd] at h; cases h
          · rw [lookupD_cons_ne (c, t) _ n hc]
            exact ih

theorem lookupD_buildRenameMap (m : List (String × String)) (cols keys : List String)
    (n : String) (hn : n ∈ cols) :
    lookupD (buildRenameMap m cols keys) n = renameDecision m keys n := by
  induction cols with
  | nil => cases hn
  | cons c cols ih =>
      rw [buildRenameMap_cons]
      by_cases hc : c = n
      · subst hc
        cases hd : renameDecision m keys c with
        | none => rw [lookupD_buildRenameMap_none m keys c hd cols]
        | some t => rw [lookupD_cons_self (c, t) _ c rfl]
      · have hn2 : n ∈ cols := by
          cases List.mem_cons.mp hn with
          | inl h => exact absurd h.symm hc
          | inr h => exact h
        cases hd : renameDecision m keys c with
        | none => exact ih hn2
        | some t =>
            rw [lookupD_cons_ne (c, t) _ n hc]
            exact ih hn2

theorem normalizeColumnNames_names (m : List (String × String)) (df : DF) (schema : Schema) :
    colNames (normalizeColumnNames m df schema) =
      (colNames df).map (fun n => (renameDecision m (schemaKeys schema) n).getD n) := by
  unfold normalizeColumnNames colNames
  rw [List.map_map, List.map_map]
  apply List.map_congr_left
  intro c hc
  simp only [Function.comp]
  show (lookupD (buildRenameMap m (colNames df) (schemaKeys schema)) c.name).getD c.name = _
  rw [lookupD_buildRenameMap m (colNames df) (schemaKeys schema) c.name
    (List.mem_map.mpr ⟨c, hc, rfl⟩)]

/-- Counterexample to claim C9: with schema columns `{order_qty, orderqty}`
(whose normalized forms collide) and incoming column `order__qty` (which
normalizes to `orderqty`, matching *two* normalized schema names), the code
still renames — to `orderqty`, the schema column whose normalized entry was
written last — even though the claim allows a normalized rename only when the
match is unique. -/
theorem claim9_cex :
    colNames (normalizeColumnNames COLUMN_MAPPING dfC9 (introspectSchema rowsC9)) =
      ["orderqty"] ∧
    ((schemaKeys (introspectSchema rowsC9)).filter
      (fun k => normName k == normName "order__qty")).length = 2 ∧
    "order__qty" ∉ schemaKeys (introspectSchema rowsC9) := by
  refine ⟨rfl, rfl, by decide⟩

/-- Claim C9 amended: matching priority is exact name, then explicit alias,
then normalized name, and each rename is deterministic; but the normalized
rule fires whenever the normalized incoming name is present in the normalized
map at all (not only on a unique match), and a normalized-form collision
among schema columns resolves to the *last* schema column with that
normalized form (Python-dict last-write-wins over schema order). -/
theorem claim9_amended (mapping : List (String × String)) (schema : Schema) (df : DF) :
    colNames (normalizeColumnNames mapping df schema) =
      (colNames df).map (fun n => (renameDecision mapping (schemaKeys schema) n).getD n) ∧
    (∀ n, n ∈ schemaKeys schema → renameDecision mapping (schemaKeys schema) n = none) ∧
    (∀ n m, n ∉ schemaKeys schema → lookupD mapping n = some m → m ∈ schemaKeys schema →
      renameDecision mapping (schemaKeys schema) n = some m) ∧
    (∀ n, n ∉ schemaKeys schema → aliasOk mapping (schemaKeys schema) n = false →
      renameDecision mapping (schemaKeys schema) n =
        ((schemaKeys schema).filter (fun k => normName k == normName n)).getLast?) := by
  refine ⟨normalizeColumnNames_names mapping df schema, ?_, ?_, ?_⟩
  · intro n hn
    unfold renameDecision
    rw [if_pos hn]
  · intro n m hn hlk hm
    unfold renameDecision
    rw [if_neg hn, if_pos (by unfold aliasOk; rw [hlk]; simpa using hm), hlk]
  · intro n hn halias
    unfold renameDecision
    rw [if_neg hn, if_neg (by rw [halias]; exact Bool.false_ne_true)]
    exact lookup_normalizedSchema (schemaKeys schema) n

/-- Witness for the amended C9 at concrete inputs: an exact match is kept, an
alias fires when its target is a schema column, and a collided normalized
match renames to the last colliding schema column. -/
theorem claim9_amended_witness :
    colNames (normalizeColumnNames [("qtd", "order_qty")] dfC9 (introspectSchema rowsC9)) =
      ["orderqty"] ∧
    renameDecision [("qtd", "order_qty")] (schemaKeys (introspectSchema rowsC9))
      "order_qty" = none ∧
    renameDecision [("qtd", "order_qty")] (schemaKeys (introspectSchema rowsC9))
      "qtd" = some "order_qty" ∧
    renameDecision [("qtd", "order_qty")] (schemaKeys (introspectSchema rowsC9))
      "order__qty" = some "orderqty" := by
  have h := claim9_amended [("qtd", "order_qty")] (introspectSchema rowsC9) dfC9
  refine ⟨?_, ?_, ?_, ?_⟩
  · rw [h.1]; rfl
  · exact h.2.1 "order_qty" (by decide)
  · exact h.2.2.1 "qtd" "order_qty" (by decide) rfl (by decide)
  · rw [h.2.2.2 "order__qty" (by decide) rfl]; rfl

/-! ## Column-name lemmas for the reconciliation pipeline -/

theorem colNames_filter (p : String → Bool) (d : DF) :
    colNames (d.filter (fun c => p c.name)) = (colNames d).filter p := by
  induction d with
  | nil => rfl
  | cons c d ih =>
      by_cases hc : p c.name
      · calc colNames (List.filter (fun c => p c.name) (c :: d))
            = c.name :: colNames (List.filter (fun c => p c.name) d) := by
              rw [@List.filter_cons_of_pos Col (fun c => p c.name) c d hc]; rfl
          _ = c.name :: List.filter p (colNames d) := by rw [ih]
          _ = List.filter p (colNames (c :: d)) := by
              rw [show colNames (c :: d) = c.name :: colNames d from rfl,
                List.filter_cons_of_pos hc]
      · calc colNames (List.filter (fun c => p c.name) (c :: d))
            = colNames (List.filter (fun c => p c.name) d) := by
              rw [@List.filter_cons_of_neg Col (fun c => p c.name) c d (by simpa using hc)]
          _ = List.filter p (colNames d) := ih
          _ = List.filter p (colNames (c :: d)) := by
              rw [show colNames (c :: d) = c.name :: colNames d from rfl,
                List.filter_cons_of_neg (by simpa using hc)]

theorem colNames_backfill (d : DF) (s : Schema) :
    colNames (backfillMissing d s) =
      colNames d ++ (schemaKeys s).filter (fun k => decide (k ∉ colNames d)) := by
  unfold backfillMissing colNames
  rw [List.map_append, List.map_map]
  congr 1
  have h : ∀ l : List String,
      List.map ((fun (c : Col) => c.name) ∘ fun k =>
        ({ name := k, dtype := Dtype.objectDt, vals := List.replicate (nRows d) Val.vnull } :
          Col)) l = l := by
    intro l
    induction l with
    | nil => rfl
    | cons x l ih => rw [List.map_cons, ih]; rfl
  exact h _

theorem castColFn_name (t : String) (c : Col) : (castColFn t c).name = c.name := by
  unfold castColFn
  split
  · rfl
  split
  · rfl
  split
  · rfl
  split <;> rfl

theorem colNames_applyCast (d : DF) (p : String × String) :
    colNames (applyCast d p) = colNames d := by
  unfold applyCast colNames
  rw [List.map_map]
  apply List.map_congr_left
  intro c _
  simp only [Function.comp]
  by_cases hc : c.name = p.1
  · rw [if_pos hc, castColFn_name]
  · rw [if_neg hc]

theorem colNames_foldl_applyCast (s : Schema) (d : DF) :
    colNames (s.foldl applyCast d) = colNames d := by
  induction s generalizing d with
  | nil => rfl
  | cons p s ih => rw [List.foldl_cons, ih, colNames_applyCast]

theorem finalColFn_name (c : Col) : (finalColFn c).name = c.name := by
  unfold finalColFn
  split <;> rfl

theorem colNames_finalNaPass (d : DF) : colNames (finalNaPass d) = colNames d := by
  unfold finalNaPass colNames
  rw [List.map_map]
  apply List.map_congr_left
  intro c _
  exact finalColFn_name c

theorem colNames_castDfToSchema (d : DF) (s : Schema) :
    colNames (castDfToSchema d s) = colNames d := by
  unfold castDfToSchema
  rw [colNames_finalNaPass, colNames_foldl_applyCast]

theorem filter_name_singleton (d : DF) (k : String) (hnd : (colNames d).Nodup)
    (hk : k ∈ colNames d) :
    (d.filter (fun c => decide (c.name = k))).map (fun c => c.name) = [k] := by
  induction d with
  | nil => cases hk
  | cons c d ih =>
      have hnd2 : (colNames d).Nodup ∧ c.name ∉ colNames d := by
        have := hnd
        unfold colNames at this
        rw [List.map_cons, List.nodup_cons] at this
        exact ⟨this.2, this.1⟩
      by_cases hc : c.name = k
      · rw [@List.filter_cons_of_pos Col (fun c => decide (c.name = k)) c d (by simpa using hc)]
        rw [List.map_cons, hc]
        have hempty : d.filter (fun c => decide (c.name = k)) = [] := by
          rw [List.filter_eq_nil_iff]
          intro x hx hxk
          have hxk2 : x.name = k := by simpa using hxk
          exact hnd2.2 (hc ▸ hxk2 ▸ List.mem_map.mpr ⟨x, hx, rfl⟩)
        rw [hempty]
        rfl
      · rw [@List.filter_cons_of_neg Col (fun c => decide (c.name = k)) c d (by simpa using hc)]
        apply ih hnd2.1
        have : k ∈ c.name :: colNames d := by
          have := hk
          unfold colNames at this
          rw [List.map_cons] at this
          exact this
        cases List.mem_cons.mp this with
        | inl h => exact absurd h.symm hc
        | inr h => exact h

theorem colNames_reorder (d : DF) (keys : List String)
    (hnd : (colNames d).Nodup) (hsub : ∀ k ∈ keys, k ∈ colNames d) :
    colNames (keys.flatMap (fun k => d.filter (fun c => decide (c.name = k)))) = keys := by
  induction keys with
  | nil => rfl
  | cons k keys ih =>
      rw [List.flatMap_cons]
      unfold colNames
      rw [List.map_append]
      rw [filter_name_singleton d k hnd (hsub k (List.mem_cons_self k keys))]
      rw [show List.map (fun c => c.name)
        (keys.flatMap (fun k => d.filter (fun c => decide (c.name = k)))) =
        colNames (keys.flatMap (fun k => d.filter (fun c => decide (c.name = k)))) from rfl]
      rw [ih (fun x hx => hsub x (List.mem_cons_of_mem k hx))]
      rfl

/-- Claim C1: the table handed to the replace-load writer after
reconciliation (renaming, backfilling missing schema columns, dropping extra
columns, casting, reordering) has exactly the introspected destination
schema's column set, in the destination schema's physical column order.  The
hypothesis asks renaming not to have produced duplicate labels (when it does,
the real pipeline crashes inside `cast_df_to_schema` before any table is
handed to the writer). -/
theorem claim1_schema_invariant (rows : List (String × String)) (df : DF)
    (hnd : (colNames (normalizeColumnNames COLUMN_MAPPING df (introspectSchema rows))).Nodup) :
    colNames (reconcilePipeline df (introspectSchema rows)) =
      schemaKeys (introspectSchema rows) := by
  have hkeys : (schemaKeys (introspectSchema rows)).Nodup := introspect_keys_nodup rows
  show colNames (reorderCols (castDfToSchema (dropExtras (backfillMissing
    (normalizeColumnNames COLUMN_MAPPING df (introspectSchema rows)) (introspectSchema rows))
    (introspectSchema rows)) (introspectSchema rows)) (introspectSchema rows)) = _
  set S := introspectSchema rows with hS
  set d1 := normalizeColumnNames COLUMN_MAPPING df S with hd1
  have hb : colNames (backfillMissing d1 S) =
      colNames d1 ++ (schemaKeys S).filter (fun k => decide (k ∉ colNames d1)) :=
    colNames_backfill d1 S
  have hnd2 : (colNames (backfillMissing d1 S)).Nodup := by
    rw [hb, List.nodup_append]
    refine ⟨hnd, hkeys.filter _, ?_⟩
    intro a ha hafil
    have : a ∉ colNames d1 := by
      have := (List.mem_filter.mp hafil).2
      simpa using this
    exact this ha
  have hd3 : colNames (dropExtras (backfillMissing d1 S) S) =
      (colNames (backfillMissing d1 S)).filter (fun n => decide (n ∈ schemaKeys S)) := by
    unfold dropExtras
    exact colNames_filter (fun n => decide (n ∈ schemaKeys S)) (backfillMissing d1 S)
  have hnd3 : (colNames (dropExtras (backfillMissing d1 S) S)).Nodup := by
    rw [hd3]
    exact hnd2.filter _
  have hsub : ∀ k ∈ schemaKeys S, k ∈ colNames (dropExtras (backfillMissing d1 S) S) := by
    intro k hk
    rw [hd3, List.mem_filter]
    refine ⟨?_, by simpa using hk⟩
    rw [hb, List.mem_append]
    by_cases hkin : k ∈ colNames d1
    · exact .inl hkin
    · exact .inr (List.mem_filter.mpr ⟨hk, by simpa using hkin⟩)
  have hcast : colNames (castDfToSchema (dropExtras (backfillMissing d1 S) S) S) =
      colNames (dropExtras (backfillMissing d1 S) S) :=
    colNames_castDfToSchema _ _
  unfold reorderCols
  apply colNames_reorder
  · rw [hcast]; exact hnd3
  · intro k hk
    rw [hcast]
    exact hsub k hk

/-- Witness for C1: a concrete result table (one normalizable column, one
extra column) against a concrete two-column catalog. -/
theorem claim1_witness :
    (colNames (normalizeColumnNames COLUMN_MAPPING dfW1 (introspectSchema rowsW1))).Nodup ∧
    colNames (reconcilePipeline dfW1 (introspectSchema rowsW1)) =
      schemaKeys (introspectSchema rowsW1) :=
  ⟨by decide, claim1_schema_invariant rowsW1 dfW1 (by decide)⟩

/-! ## Cast-engine lemmas -/

theorem foldl_applyCast_eq_map (s : Schema) (df : DF) :
    s.foldl applyCast df = df.map (fun c => s.foldl stepCol c) := by
  induction s generalizing df with
  | nil =>
      show df = df.map (fun c => c)
      exact (List.map_id df).symm
  | cons p s ih =>
      rw [List.foldl_cons, ih (applyCast df p)]
      unfold applyCast
      rw [List.map_map]
      rfl

theorem foldl_stepCol_skip (s : Schema) (c : Col) (h : c.name ∉ schemaKeys s) :
    s.foldl stepCol c = c := by
  induction s with
  | nil => rfl
  | cons p s ih =>
      rw [List.foldl_cons]
      have hne : ¬c.name = p.1 := fun hc => h (by rw [hc]; exact List.mem_cons_self p.1 _)
      rw [show stepCol c p = c by unfold stepCol; rw [if_neg hne]]
      exact ih (fun hc => h (List.mem_cons_of_mem p.1 hc))

theorem foldl_stepCol_lookup (s : Schema) (c : Col) (t : String)
    (hnd : (schemaKeys s).Nodup) (hl : lookupD s c.name = some t) :
    s.foldl stepCol c = castColFn t c := by
  induction s with
  | nil => rw [lookupD_nil] at hl; cases hl
  | cons p s ih =>
      by_cases hp : p.1 = c.name
      · have ht : p.2 = t := by
          rw [lookupD_cons_self p s c.name hp] at hl
          injection hl
        rw [List.foldl_cons, show stepCol c p = castColFn p.2 c by
          unfold stepCol; rw [if_pos hp.symm]]
        have hnotin : c.name ∉ schemaKeys s := by
          have h2 := hnd
          rw [show schemaKeys (p :: s) = p.1 :: schemaKeys s from rfl, List.nodup_cons] at h2
          rw [← hp]
          exact h2.1
        rw [foldl_stepCol_skip s _ (by rw [castColFn_name]; exact hnotin), ht]
      · rw [List.foldl_cons, show stepCol c p = c by
          unfold stepCol; rw [if_neg (fun hcc => hp hcc.symm)]]
        apply ih
        · rw [show schemaKeys (p :: s) = p.1 :: schemaKeys s from rfl,
            List.nodup_cons] at hnd
          exact hnd.2
        · rw [lookupD_cons_ne p s c.name hp] at hl
          exact hl

theorem castDfToSchema_mem (df : DF) (s : Schema) (c0 : Col) (t : String)
    (hc : c0 ∈ df) (hnd : (schemaKeys s).Nodup) (hl : lookupD s c0.name = some t) :
    finalColFn (castColFn t c0) ∈ castDfToSchema df s := by
  unfold castDfToSchema finalNaPass
  rw [foldl_applyCast_eq_map, List.map_map]
  apply List.mem_map.mpr
  refine ⟨c0, hc, ?_⟩
  simp only [Function.comp]
  rw [foldl_stepCol_lookup s c0 t hnd hl]

theorem targetOf_dtMember (t : String) (h : t ∈ DATETIME_TYPES) :
    targetOf t = "datetime64[ns]" := by
  rcases (by simpa [DATETIME_TYPES] using h : t = "datetime" ∨ t = "datetime2" ∨
    t = "smalldatetime") with rfl | rfl | rfl <;> rfl

theorem targetOf_dateMember (t : String) (h : t ∈ DATE_TYPES) :
    targetOf t = "datetime64[ns]" := by
  rcases (by simpa [DATE_TYPES] using h : t = "date") with rfl
  rfl

theorem targetOf_timeMember (t : String) (h : t ∈ TIME_TYPES) : targetOf t = "object" := by
  rcases (by simpa [TIME_TYPES] using h : t = "time") with rfl
  rfl

theorem finalColFn_objectDt (n : String) (vs : List Val) :
    finalColFn ⟨n, .objectDt, vs⟩ = ⟨n, .objectDt, vs.map nullifyNa⟩ := by
  unfold finalColFn
  rw [if_pos (Or.inr rfl)]

theorem finalColFn_float64 (n : String) (vs : List Val) :
    finalColFn ⟨n, .float64, vs⟩ = ⟨n, .float64, vs.map nullifyNa⟩ := by
  unfold finalColFn
  rw [if_pos (Or.inl rfl)]

theorem finalColFn_int64 (n : String) (vs : List Val) :
    finalColFn ⟨n, .int64, vs⟩ = ⟨n, .int64, vs⟩ := by
  unfold finalColFn
  rw [if_neg (by intro h; rcases h with h | h <;> cases h)]

theorem finalColFn_boolDt (n : String) (vs : List Val) :
    finalColFn ⟨n, .boolDt, vs⟩ = ⟨n, .boolDt, vs⟩ := by
  unfold finalColFn
  rw [if_neg (by intro h; rcases h with h | h <;> cases h)]

theorem nullifyNa_castDt (v0 : Val) :
    nullifyNa (castDt v0) = Val.vnull ∨ ∃ n, nullifyNa (castDt v0) = Val.vdt n := by
  unfold castDt
  cases pdToDatetimeV false v0 with
  | none => exact .inl rfl
  | some n => exact .inr ⟨n, rfl⟩

theorem nullifyNa_castDate (v0 : Val) :
    nullifyNa (castDate v0) = Val.vnull ∨ ∃ n, nullifyNa (castDate v0) = Val.vdate n := by
  unfold castDate
  cases pdToDatetimeV true v0 with
  | none => exact .inl rfl
  | some n => exact .inr ⟨n - n % 86400, rfl⟩

theorem nullifyNa_castTime (v0 : Val) :
    nullifyNa (castTime v0) = Val.vnull ∨ ∃ n, nullifyNa (castTime v0) = Val.vtime n := by
  unfold castTime
  cases pdToDatetimeV false v0 with
  | none => exact .inl rfl
  | some n => exact .inr ⟨n % 86400, rfl⟩

theorem nullifyNa_castFloat (v0 : Val) :
    nullifyNa (castFloat v0) = Val.vnull ∨ ∃ q, nullifyNa (castFloat v0) = Val.vnum q := by
  unfold castFloat
  cases pdToNumeric v0 with
  | none => exact .inl rfl
  | some q => exact .inr ⟨q, rfl⟩

theorem nullifyNa_other (w : Val) :
    nullifyNa w = Val.vnull ∨
      (nullifyNa w ≠ Val.vnan ∧ nullifyNa w ≠ Val.vnull) := by
  cases w <;> simp [nullifyNa]

/-- Branch-by-branch invariant of one cast column after the final NaN pass. -/
theorem castColFn_final_invariant (t : String) (c0 : Col) :
    ((targetOf (strLower t) = "int64" ∨ targetOf (strLower t) = "bool") →
      ∀ v ∈ (finalColFn (castColFn t c0)).vals,
        v ≠ Val.vnull ∧ v ≠ Val.vnan ∧ wellTypedB (strLower t) v = true) ∧
    (¬(targetOf (strLower t) = "int64" ∨ targetOf (strLower t) = "bool") →
      ∀ v ∈ (finalColFn (castColFn t c0)).vals,
        v = Val.vnull ∨ (v ≠ Val.vnan ∧ wellTypedB (strLower t) v = true)) := by
  unfold castColFn
  by_cases h1 : strLower t ∈ DATETIME_TYPES
  · rw [if_pos h1]
    have hT := targetOf_dtMember _ h1
    constructor
    · intro h
      rw [hT] at h
      rcases h with h | h <;> exact absurd h (by decide)
    · intro _ v hv
      rw [finalColFn_objectDt, List.map_map] at hv
      obtain ⟨v0, _, rfl⟩ := List.mem_map.mp hv
      rcases nullifyNa_castDt v0 with h | ⟨n, h⟩
      · exact .inl h
      · refine .inr ?_
        rw [show (nullifyNa ∘ castDt) v0 = nullifyNa (castDt v0) from rfl, h]
        refine ⟨by simp, ?_⟩
        unfold wellTypedB
        rw [if_pos h1]
  · rw [if_neg h1]
    by_cases h2 : strLower t ∈ DATE_TYPES
    · rw [if_pos h2]
      have hT := targetOf_dateMember _ h2
      constructor
      · intro h
        rw [hT] at h
        rcases h with h | h <;> exact absurd h (by decide)
      · intro _ v hv
        rw [finalColFn_objectDt, List.map_map] at hv
        obtain ⟨v0, _, rfl⟩ := List.mem_map.mp hv
        rcases nullifyNa_castDate v0 with h | ⟨n, h⟩
        · exact .inl h
        · refine .inr ?_
          rw [show (nullifyNa ∘ castDate) v0 = nullifyNa (castDate v0) from rfl, h]
          refine ⟨by simp, ?_⟩
          unfold wellTypedB
          rw [if_neg h1, if_pos h2]
    · rw [if_neg h2]
      by_cases h3 : strLower t ∈ TIME_TYPES
      · rw [if_pos h3]
        have hT := targetOf_timeMember _ h3
        constructor
        · intro h
          rw [hT] at h
          rcases h with h | h <;> exact absurd h (by decide)
        · intro _ v hv
          rw [finalColFn_objectDt, List.map_map] at hv
          obtain ⟨v0, _, rfl⟩ := List.mem_map.mp hv
          rcases nullifyNa_castTime v0 with h | ⟨n, h⟩
          · exact .inl h
          · refine .inr ?_
            rw [show (nullifyNa ∘ castTime) v0 = nullifyNa (castTime v0) from rfl, h]
            refine ⟨by simp, ?_⟩
            unfold wellTypedB
            rw [if_neg h1, if_neg h2, if_pos h3]
      · rw [if_neg h3]
        split
        · next hInt =>
            constructor
            · intro _ v hv
              rw [finalColFn_int64] at hv
              obtain ⟨v0, _, rfl⟩ := List.mem_map.mp hv
              refine ⟨by simp [castInt], by simp [castInt], ?_⟩
              unfold wellTypedB
              rw [if_neg h1, if_neg h2, if_neg h3, hInt]
              rfl
            · intro h
              exact absurd (.inl hInt) h
        · next hFl =>
            constructor
            · intro h
              rcases h with h | h <;> rw [hFl] at h <;> exact absurd h (by decide)
            · intro _ v hv
              rw [finalColFn_float64, List.map_map] at hv
              obtain ⟨v0, _, rfl⟩ := List.mem_map.mp hv
              rcases nullifyNa_castFloat v0 with h | ⟨q, h⟩
              · exact .inl h
              · refine .inr ?_
                rw [show (nullifyNa ∘ castFloat) v0 = nullifyNa (castFloat v0) from rfl, h]
                refine ⟨by simp, ?_⟩
                unfold wellTypedB
                rw [if_neg h1, if_neg h2, if_neg h3, hFl]
                rfl
        · next hBool =>
            constructor
            · intro _ v hv
              rw [finalColFn_boolDt] at hv
              obtain ⟨v0, _, rfl⟩ := List.mem_map.mp hv
              refine ⟨by simp [castBool], by simp [castBool], ?_⟩
              unfold wellTypedB
              rw [if_neg h1, if_neg h2, if_neg h3, hBool]
              rfl
            · intro h
              exact absurd (.inr hBool) h
        · next hInt hFl hBool =>
            constructor
            · intro h
              rcases h with h | h
              · exact absurd h hInt
              · exact absurd h hBool
            · intro _ v hv
              rw [finalColFn_objectDt] at hv
              obtain ⟨v0, _, rfl⟩ := List.mem_map.mp hv
              rcases nullifyNa_other v0 with h | ⟨ha, hb⟩
              · exact .inl h
              · refine .inr ⟨ha, ?_⟩
                unfold wellTypedB
                rw [if_neg h1, if_neg h2, if_neg h3]
                split
                · next heq => exact absurd heq hInt
                · next heq => exact absurd heq hFl
                · next heq => exact absurd heq hBool
                · simp [ha, hb]

/-- Claim C2: the type invariant of the coercion engine.  For a column of the
frame whose (introspected) destination type coerces through the int64 or bool
branch, no output value is the null marker and every value is well-typed; for
every other destination type, every output value is either the null marker or
well-typed, and no NaN sentinel survives (the final pass cleans float64 and
object columns).  Unparseable or absent integer inputs become zero. -/
theorem claim2_type_invariant (rows : List (String × String)) (df : DF) (c0 : Col)
    (t : String) (hc : c0 ∈ df)
    (hl : lookupD (introspectSchema rows) c0.name = some t) :
    finalColFn (castColFn t c0) ∈ castDfToSchema df (introspectSchema rows) ∧
    ((targetOf (strLower t) = "int64" ∨ targetOf (strLower t) = "bool") →
      ∀ v ∈ (finalColFn (castColFn t c0)).vals,
        v ≠ Val.vnull ∧ v ≠ Val.vnan ∧ wellTypedB (strLower t) v = true) ∧
    (¬(targetOf (strLower t) = "int64" ∨ targetOf (strLower t) = "bool") →
      ∀ v ∈ (finalColFn (castColFn t c0)).vals,
        v = Val.vnull ∨ (v ≠ Val.vnan ∧ wellTypedB (strLower t) v = true)) ∧
    (∀ v, pdToNumeric v = none → castInt v = Val.vint 0) := by
  refine ⟨castDfToSchema_mem df (introspectSchema rows) c0 t hc
      (introspect_keys_nodup rows) hl,
    (castColFn_final_invariant t c0).1, (castColFn_final_invariant t c0).2, ?_⟩
  intro v hv
  unfold castInt
  rw [hv]
  rfl

/-- Witness for C2 at a concrete integer column containing an unparseable
string, a null and a NaN. -/
theorem claim2_witness :
    colW2 ∈ dfW2 ∧
    lookupD (introspectSchema rowsW2) colW2.name = some "int" ∧
    finalColFn (castColFn "int" colW2) ∈ castDfToSchema dfW2 (introspectSchema rowsW2) ∧
    (∀ v ∈ (finalColFn (castColFn "int" colW2)).vals,
      v ≠ Val.vnull ∧ v ≠ Val.vnan ∧ wellTypedB (strLower "int") v = true) := by
  have h := claim2_type_invariant rowsW2 dfW2 colW2 "int" (by decide) (by decide)
  exact ⟨by decide, by decide, h.1, h.2.1 (by decide)⟩

/-- Claim C6: the boolean coercion branch.  A `bit` destination column is cast
by `fillna(False).astype(bool)`, so every output value is a boolean (never the
null marker), and the absent inputs `None` and `NaN` map to `False`; all other
inputs map to their Python truthiness. -/
theorem claim6_bool_default_fill (rows : List (String × String)) (df : DF) (c0 : Col)
    (t : String) (hc : c0 ∈ df)
    (hl : lookupD (introspectSchema rows) c0.name = some t) (hb : strLower t = "bit") :
    finalColFn (castColFn t c0) ∈ castDfToSchema df (introspectSchema rows) ∧
    (finalColFn (castColFn t c0)).vals = c0.vals.map castBool ∧
    (∀ v ∈ (finalColFn (castColFn t c0)).vals, (∃ b, v = Val.vbool b) ∧ v ≠ Val.vnull) ∧
    castBool Val.vnull = Val.vbool false ∧ castBool Val.vnan = Val.vbool false ∧
    (∀ v, castBool v = Val.vbool (pyTruthy (fillNaFalse v))) := by
  have hcast : castColFn t c0 = ⟨c0.name, .boolDt, c0.vals.map castBool⟩ := by
    unfold castColFn
    rw [hb]
    rw [if_neg (by decide), if_neg (by decide), if_neg (by decide)]
    rfl
  refine ⟨castDfToSchema_mem df (introspectSchema rows) c0 t hc
      (introspect_keys_nodup rows) hl, ?_, ?_, rfl, rfl, fun v => rfl⟩
  · rw [hcast, finalColFn_boolDt]
  · intro v hv
    rw [hcast, finalColFn_boolDt] at hv
    obtain ⟨v0, _, rfl⟩ := List.mem_map.mp hv
    exact ⟨⟨pyTruthy (fillNaFalse v0), rfl⟩, by simp [castBool]⟩

/-- Witness for C6 at a concrete bit column containing the empty string, a
null, the string "0", a NaN and a boolean. -/
theorem claim6_witness :
    colW6 ∈ dfW6 ∧
    lookupD (introspectSchema rowsW6) colW6.name = some "bit" ∧
    finalColFn (castColFn "bit" colW6) ∈ castDfToSchema dfW6 (introspectSchema rowsW6) ∧
    (finalColFn (castColFn "bit" colW6)).vals =
      [Val.vbool false, Val.vbool false, Val.vbool true, Val.vbool false, Val.vbool true] := by
  have h := claim6_bool_default_fill rowsW6 dfW6 colW6 "bit" (by decide) (by decide) rfl
  refine ⟨by decide, by decide, h.1, ?_⟩
  rw [h.2.1]
  rfl

/-! ## Driver lemmas (statement loop, abort-on-failure) -/

theorem processAll_cons (env : Env) (prev : Option String) (s : String) (rest : List String) :
    processAll env prev (s :: rest) =
      match processStmt env prev s with
      | (effs, _, some e) => (effs, some e)
      | (effs, prev2, none) =>
          (effs ++ (processAll env prev2 rest).1, (processAll env prev2 rest).2) := rfl

theorem prevAfter_cons (env : Env) (prev : Option String) (s : String) (rest : List String) :
    prevAfter env prev (s :: rest) = prevAfter env (processStmt env prev s).2.1 rest := rfl

theorem processAll_append_ok (env : Env) (rest : List String) :
    ∀ (pre : List String) (prev : Option String), (processAll env prev pre).2 = none →
      processAll env prev (pre ++ rest) =
        ((processAll env prev pre).1 ++ (processAll env (prevAfter env prev pre) rest).1,
         (processAll env (prevAfter env prev pre) rest).2) := by
  intro pre
  induction pre with
  | nil =>
      intro prev _
      rw [List.nil_append]
      show processAll env prev rest =
        (([] : List Effect) ++ (processAll env prev rest).1, (processAll env prev rest).2)
      rw [List.nil_append]
  | cons s pre ih =>
      intro prev h
      rw [List.cons_append, processAll_cons, prevAfter_cons]
      rw [processAll_cons] at h
      rcases hps : processStmt env prev s with ⟨effs, prev2, err⟩
      rw [hps] at h
      cases err with
      | some e => simp at h
      | none =>
          simp only at h ⊢
          rw [ih prev2 h]
          rw [processAll_cons, hps]
          simp [List.append_assoc]

theorem processStmt_ok_effects (env : Env) (prev : Option String) (s : String)
    (effs : List Effect) (prev2 : Option String)
    (h : processStmt env prev s = (effs, prev2, none)) :
    effs = [] ∨ ∃ d flds n, deriveDestino s = some d ∧
      effs = [Effect.truncateMs d, Effect.insertMs d flds n] := by
  cases hq : env.queryRes s with
  | error e =>
      simp only [processStmt, hq] at h
      have h3 := congrArg (fun x => x.2.2) h
      simp at h3
  | ok df0 =>
      simp only [processStmt, hq] at h
      by_cases hemp : isEmptyDf (lowerCols df0)
      · rw [if_pos hemp] at h
        have h1 := congrArg (fun x => x.1) h
        exact .inl h1.symm
      · rw [if_neg hemp] at h
        cases hd : deriveDestino s with
        | none =>
            rw [hd] at h
            simp only at h
            have h3 := congrArg (fun x => x.2.2) h
            simp at h3
        | some destino =>
            rw [hd] at h
            simp only at h
            cases hs : getSqlserverSchema env.msRecords destino with
            | error e =>
                rw [hs] at h
                simp only at h
                have h3 := congrArg (fun x => x.2.2) h
                simp at h3
            | ok schema =>
                rw [hs] at h
                simp only at h
                have h1 := congrArg (fun x => x.1) h
                refine .inr ⟨destino, schemaKeys schema,
                  nRows (reconcilePipeline (lowerCols df0) schema), rfl, h1.symm⟩

theorem processStmt_ok_shape (env : Env) (prev : Option String) (s : String)
    (effs : List Effect) (prev2 : Option String)
    (h : processStmt env prev s = (effs, prev2, none)) :
    ∀ eff ∈ effs, ∃ d flds n,
      (eff = Effect.truncateMs d ∨ eff = Effect.insertMs d flds n) ∧
      deriveDestino s = some d := by
  rcases processStmt_ok_effects env prev s effs prev2 h with rfl | ⟨d, flds, n, hds, rfl⟩
  · intro eff heff
    cases heff
  · intro eff heff
    have hcases : eff = Effect.truncateMs d ∨ eff = Effect.insertMs d flds n := by
      simpa using heff
    rcases hcases with rfl | rfl
    · exact ⟨d, flds, n, .inl rfl, hds⟩
    · exact ⟨d, flds, n, .inr rfl, hds⟩

theorem processAll_ok_shape (env : Env) :
    ∀ (pre : List String) (prev : Option String), (processAll env prev pre).2 = none →
      ∀ eff ∈ (processAll env prev pre).1, ∃ d flds n,
        (eff = Effect.truncateMs d ∨ eff = Effect.insertMs d flds n) ∧
        ∃ p ∈ pre, deriveDestino p = some d := by
  intro pre
  induction pre with
  | nil =>
      intro prev _ eff heff
      cases heff
  | cons s pre ih =>
      intro prev h eff heff
      rw [processAll_cons] at h heff
      rcases hps : processStmt env prev s with ⟨effs, prev2, err⟩
      rw [hps] at h heff
      cases err with
      | some e => simp at h
      | none =>
          simp only at h heff
          rcases List.mem_append.mp heff with heff | heff
          · obtain ⟨d, flds, n, hshape, hds⟩ :=
              processStmt_ok_shape env prev s effs prev2 hps eff heff
            exact ⟨d, flds, n, hshape, s, List.mem_cons_self s pre, hds⟩
          · obtain ⟨d, flds, n, hshape, p, hp, hds⟩ := ih prev2 h eff heff
            exact ⟨d, flds, n, hshape, p, List.mem_cons_of_mem s hp, hds⟩

theorem processStmt_schema_error (env : Env) (prev : Option String) (s : String)
    (destino e : String) (df0 : DF)
    (hq : env.queryRes s = .ok df0) (hne : isEmptyDf (lowerCols df0) = false)
    (hd : deriveDestino s = some destino)
    (hschema : getSqlserverSchema env.msRecords destino = .error e) :
    processStmt env prev s =
      ([notifyEff e (ctxTabela (some destino))], some destino, some e) := by
  simp only [processStmt, hq]
  rw [if_neg (by rw [hne]; simp), hd]
  simp only
  rw [hschema]

theorem extraiEnvia_schema_error (env : Env) (pre post : List String) (s : String)
    (destino e : String) (df0 : DF)
    (hfile : env.queriesFileExists = true)
    (hstmts : parseSelects env.queryLines = pre ++ s :: post)
    (hpre : (processAll env none pre).2 = none)
    (hq : env.queryRes s = .ok df0) (hne : isEmptyDf (lowerCols df0) = false)
    (hd : deriveDestino s = some destino)
    (hschema : getSqlserverSchema env.msRecords destino = .error e) :
    extraiEnvia env = ((processAll env none pre).1 ++
      [notifyEff e (ctxTabela (some destino)), notifyEff e ctxExtr], some e) := by
  unfold extraiEnvia
  rw [hfile]
  rw [if_pos rfl, hstmts]
  rw [processAll_append_ok env (s :: post) pre none hpre]
  rw [processAll_cons,
    processStmt_schema_error env (prevAfter env none pre) s destino e df0 hq hne hd hschema]
  simp [List.append_assoc]

theorem runPipeline_extract_error (env : Env) (effs : List Effect) (e : String)
    (hflag : env.flagRead = .ok (some (some "S")))
    (hext : extraiEnvia env = (effs, some e)) :
    runPipeline env = (RunState.failed, effs) := by
  have hcf : checaFlag (.ok (some (some "S"))) =
      (.ok "extrai_envia_sqlserver", []) := by simp [checaFlag]
  unfold runPipeline
  rw [hflag, hcf]
  simp only
  rw [if_pos trivial, hext]
  simp

theorem notify_contains_destino (e destino : String) :
    ∃ u v, mensagemEmail e.toList (ctxTabela (some destino)).toList =
      u ++ destino.toList ++ v := by
  have hctx : (ctxTabela (some destino)).toList =
      "processamento da tabela ".toList ++ destino.toList := by
    unfold ctxTabela
    exact String.data_append _ _
  unfold mensagemEmail
  rw [hctx]
  rw [if_neg (by
    rw [show "processamento da tabela ".toList ++ destino.toList =
      'p' :: ("rocessamento da tabela ".toList ++ destino.toList) from rfl]
    exact List.cons_ne_nil _ _)]
  refine ⟨"Falha identificada durante: ".toList ++ "processamento da tabela ".toList,
    "\n\nErro: ".toList ++ erroPrincipal e.toList, ?_⟩
  simp [List.append_assoc]

/-- Claim C4: when processing one extraction statement fails with a schema
error (all earlier statements having succeeded, none of them targeting the
failing table), the operator is notified with the offending destination table
name, the whole driver run aborts so that no later statement contributes any
effect, nothing is ever written to the failed table, the copy and flag-reset
steps never execute, and the run-enable flag is never reset. -/
theorem claim4_failure_aborts_run (env : Env) (pre post : List String) (s : String)
    (destino e : String) (df0 : DF)
    (hflag : env.flagRead = .ok (some (some "S")))
    (hfile : env.queriesFileExists = true)
    (hstmts : parseSelects env.queryLines = pre ++ s :: post)
    (hpre : (processAll env none pre).2 = none)
    (hpredest : ∀ p ∈ pre, deriveDestino p ≠ some destino)
    (hq : env.queryRes s = .ok df0)
    (hne : isEmptyDf (lowerCols df0) = false)
    (hd : deriveDestino s = some destino)
    (hschema : getSqlserverSchema env.msRecords destino = .error e) :
    (runPipeline env).1 = RunState.failed ∧
    (runPipeline env).2 = (processAll env none pre).1 ++
      [notifyEff e (ctxTabela (some destino)), notifyEff e ctxExtr] ∧
    (∃ u v, Effect.notify (u ++ destino.toList ++ v) ∈ (runPipeline env).2) ∧
    Effect.truncateMs destino ∉ (runPipeline env).2 ∧
    (∀ f n, Effect.insertMs destino f n ∉ (runPipeline env).2) ∧
    Effect.setFlagN ∉ (runPipeline env).2 ∧
    (∀ tbl, Effect.truncateOra tbl ∉ (runPipeline env).2) ∧
    (∀ tbl f n, Effect.insertOra tbl f n ∉ (runPipeline env).2) := by
  have hext := extraiEnvia_schema_error env pre post s destino e df0
    hfile hstmts hpre hq hne hd hschema
  have hrun := runPipeline_extract_error env _ e hflag hext
  have heffs : (runPipeline env).2 = (processAll env none pre).1 ++
      [notifyEff e (ctxTabela (some destino)), notifyEff e ctxExtr] := by rw [hrun]
  have hshape := processAll_ok_shape env pre none hpre
  have htail : ∀ eff : Effect, eff ∈ ([notifyEff e (ctxTabela (some destino)),
      notifyEff e ctxExtr] : List Effect) →
      eff = notifyEff e (ctxTabela (some destino)) ∨ eff = notifyEff e ctxExtr := by
    intro eff heff
    simpa using heff
  refine ⟨by rw [hrun], heffs, ?_, ?_, ?_, ?_, ?_, ?_⟩
  · obtain ⟨u, v, huv⟩ := notify_contains_destino e destino
    refine ⟨u, v, ?_⟩
    rw [heffs, ← huv]
    apply List.mem_append.mpr
    exact .inr (List.mem_cons_self _ _)
  · rw [heffs]
    intro hmem
    rcases List.mem_append.mp hmem with hmem | hmem
    · obtain ⟨d, flds, n, hsh, p, hp, hds⟩ := hshape _ hmem
      rcases hsh with hsh | hsh
      · have : d = destino := by injection hsh.symm
        exact hpredest p hp (this ▸ hds)
      · cases hsh
    · rcases htail _ hmem with hsh | hsh <;> cases hsh
  · intro f n
    rw [heffs]
    intro hmem
    rcases List.mem_append.mp hmem with hmem | hmem
    · obtain ⟨d, flds, n2, hsh, p, hp, hds⟩ := hshape _ hmem
      rcases hsh with hsh | hsh
      · cases hsh
      · have : d = destino := by injection hsh.symm
        exact hpredest p hp (this ▸ hds)
    · rcases htail _ hmem with hsh | hsh <;> cases hsh
  · rw [heffs]
    intro hmem
    rcases List.mem_append.mp hmem with hmem | hmem
    · obtain ⟨d, flds, n, hsh, p, hp, hds⟩ := hshape _ hmem
      rcases hsh with hsh | hsh <;> cases hsh
    · rcases htail _ hmem with hsh | hsh <;> cases hsh
  · intro tbl
    rw [heffs]
    intro hmem
    rcases List.mem_append.mp hmem with hmem | hmem
    · obtain ⟨d, flds, n, hsh, p, hp, hds⟩ := hshape _ hmem
      rcases hsh with hsh | hsh <;> cases hsh
    · rcases htail _ hmem with hsh | hsh <;> cases hsh
  · intro tbl f n
    rw [heffs]
    intro hmem
    rcases List.mem_append.mp hmem with hmem | hmem
    · obtain ⟨d, flds, n2, hsh, p, hp, hds⟩ := hshape _ hmem
      rcases hsh with hsh | hsh <;> cases hsh
    · rcases htail _ hmem with hsh | hsh <;> cases hsh

/-- Witness for C4: the single-statement run against `dbo.lote` whose catalog
lookup fails — run fails, a notification carries `dbo.lote`, no write to
`dbo.lote`, the flag is never reset. -/
theorem claim4_witness :
    parseSelects envC4.queryLines = [] ++ stmtC4 :: [] ∧
    deriveDestino stmtC4 = some "dbo.lote" ∧
    ((runPipeline envC4).1 = RunState.failed ∧
     (∃ u v, Effect.notify (u ++ "dbo.lote".toList ++ v) ∈ (runPipeline envC4).2) ∧
     Effect.truncateMs "dbo.lote" ∉ (runPipeline envC4).2 ∧
     Effect.setFlagN ∉ (runPipeline envC4).2) := by
  have h := claim4_failure_aborts_run envC4 [] [] stmtC4 "dbo.lote" "Invalid object name"
    dfC4 rfl rfl (by decide) rfl (by simp) rfl (by decide) (by decide) rfl
  exact ⟨by decide, by decide, h.1, h.2.2.1, h.2.2.2.1, h.2.2.2.2.2.1⟩

/-- Counterexample to claim C8: one failing statement produces *two* operator
notifications, not exactly one — the per-table `except` emails and re-raises,
and the stage-level `except` of `extrai_envia_sqlserver` emails again. -/
theorem claim8_cex :
    countNotify (runPipeline envC8).2 = 2 ∧ countNotify (runPipeline envC8).2 ≠ 1 := by
  decide

/-- Claim C8 amended: a failure during per-table processing in the extraction
stage is caught twice — once by the per-table handler (notification with the
table name) and once by the stage-level handler (stage notification) — so it
triggers exactly two notifications; the error is then propagated unchanged to
terminate the run, which ends failed. -/
theorem claim8_amended (env : Env) (pre post : List String) (s : String)
    (destino e : String) (df0 : DF)
    (hflag : env.flagRead = .ok (some (some "S")))
    (hfile : env.queriesFileExists = true)
    (hstmts : parseSelects env.queryLines = pre ++ s :: post)
    (hpre : (processAll env none pre).2 = none)
    (hq : env.queryRes s = .ok df0)
    (hne : isEmptyDf (lowerCols df0) = false)
    (hd : deriveDestino s = some destino)
    (hschema : getSqlserverSchema env.msRecords destino = .error e) :
    countNotify (runPipeline env).2 = 2 ∧
    (extraiEnvia env).2 = some e ∧
    (runPipeline env).1 = RunState.failed := by
  have hext := extraiEnvia_schema_error env pre post s destino e df0
    hfile hstmts hpre hq hne hd hschema
  have hrun := runPipeline_extract_error env _ e hflag hext
  refine ⟨?_, by rw [hext], by rw [hrun]⟩
  rw [hrun]
  show countNotify ((processAll env none pre).1 ++
    [notifyEff e (ctxTabela (some destino)), notifyEff e ctxExtr]) = 2
  unfold countNotify
  rw [List.countP_append]
  have h0 : (processAll env none pre).1.countP isNotifyEff = 0 := by
    rw [List.countP_eq_zero]
    intro eff heff
    obtain ⟨d, flds, n, hsh, _, _, _⟩ := processAll_ok_shape env pre none hpre eff heff
    rcases hsh with rfl | rfl <;> simp [isNotifyEff]
  rw [h0]
  rfl

/-- Witness for the amended C8 at the concrete `dbo.lote` scenario: exactly
two notifications, and the schema error is propagated unchanged. -/
theorem claim8_amended_witness :
    countNotify (runPipeline envC8).2 = 2 ∧
    (extraiEnvia envC8).2 = some "ORA-00942: table or view does not exist" := by
  have h := claim8_amended envC8 [] [] stmtC4 "dbo.lote"
    "ORA-00942: table or view does not exist" dfC4
    rfl rfl (by decide) rfl rfl (by decide) (by decide) rfl
  exact ⟨h.1, h.2.1⟩

end ErpAps
